import Mathlib

/-!
Shallow embedding of the cybele-core password-vault library.

Bytes are modelled as `Nat` (with `% 256` where Rust casts to `u8`), 32-bit
words as `Nat` with explicit `% 2^32` at every wrapping operation, byte
buffers as `List Nat`, and fallible Rust functions as `Option`-returning
Lean functions.  Rust functions that can panic are modelled with a result
type that distinguishes the panic from the soft `None`.
-/

set_option maxRecDepth 100000
set_option linter.dupNamespace false

namespace Cybele

/-! ### 32-bit word primitives (Rust `u32` operations) -/

/-- Rust `u32::wrapping_add`. -/
def add32 (a b : Nat) : Nat := (a + b) % 4294967296

/-- Rust `u32::rotate_right(n)` for a word `x < 2^32`. -/
def rotr32 (n x : Nat) : Nat := ((x >>> n) ||| (x <<< (32 - n))) % 4294967296

/-- Rust `!x` (bitwise complement) on `u32`. -/
def not32 (x : Nat) : Nat := x ^^^ 0xffffffff

namespace sha256

/-- SHA-256 round constants (FIPS 180-4), from `hash/sha256.rs`, eight
constants per row. -/
def k256 : List Nat :=
  [0x428a2f98, 0x71374491, 0xb5c0fbcf, 0xe9b5dba5, 0x3956c25b, 0x59f111f1, 0x923f82a4, 0xab1c5ed5]
  ++ [0xd807aa98, 0x12835b01, 0x243185be, 0x550c7dc3, 0x72be5d74, 0x80deb1fe, 0x9bdc06a7, 0xc19bf174]
  ++ [0xe49b69c1, 0xefbe4786, 0x0fc19dc6, 0x240ca1cc, 0x2de92c6f, 0x4a7484aa, 0x5cb0a9dc, 0x76f988da]
  ++ [0x983e5152, 0xa831c66d, 0xb00327c8, 0xbf597fc7, 0xc6e00bf3, 0xd5a79147, 0x06ca6351, 0x14292967]
  ++ [0x27b70a85, 0x2e1b2138, 0x4d2c6dfc, 0x53380d13, 0x650a7354, 0x766a0abb, 0x81c2c92e, 0x92722c85]
  ++ [0xa2bfe8a1, 0xa81a664b, 0xc24b8b70, 0xc76c51a3, 0xd192e819, 0xd6990624, 0xf40e3585, 0x106aa070]
  ++ [0x19a4c116, 0x1e376c08, 0x2748774c, 0x34b0bcb5, 0x391c0cb3, 0x4ed8aa4a, 0x5b9cca4f, 0x682e6ff3]
  ++ [0x748f82ee, 0x78a5636f, 0x84c87814, 0x8cc70208, 0x90befffa, 0xa4506ceb, 0xbef9a3f7, 0xc67178f2]

/-- The eight working variables `a..h` of the compression loop. -/
structure State where
  a : Nat
  b : Nat
  c : Nat
  d : Nat
  e : Nat
  f : Nat
  g : Nat
  h : Nat
deriving DecidableEq

/-- Initial intermediate hash values `h0..h7` from `hash/sha256.rs`. -/
def initState : State :=
  { a := 0x6a09e667, b := 0xbb67ae85, c := 0x3c6ef372, d := 0xa54ff53a,
    e := 0x510e527f, f := 0x9b05688c, g := 0x1f83d9ab, h := 0x5be0cd19 }

/-- `pad_len` from `hash/sha256.rs` line 18 (using `Int.emod` for
Rust's `rem_euclid`). -/
def padLen (messageBytesCount : Nat) : Nat :=
  ((((448 - (8 * messageBytesCount : Int) - 1).emod 512) + 1) / 8).toNat

/-- The 64-bit big-endian encoding of the message bit length, the final 8
padding bytes written by the `index >= message_bytes_count + pad_len` branch. -/
def lengthBytes (bits : Nat) : List Nat :=
  (List.range 8).map (fun i => (bits >>> (8 * (7 - i))) % 256)

/-- The padded message processed by the block loop: the source reconstructs
exactly these bytes index-by-index (message, then `0x80`, then zeros, then
the 64-bit bit length). -/
def padded (message : List Nat) : List Nat :=
  message ++ 0x80 :: (List.replicate (padLen message.length - 1) 0
    ++ lengthBytes (8 * message.length))

/-- Big-endian assembly of one 32-bit message-schedule word from 4 bytes,
mirroring the `wrapping_add` of shifted bytes in the source. -/
def wordBE (b0 b1 b2 b3 : Nat) : Nat :=
  ((b0 <<< 24) + (b1 <<< 16) + (b2 <<< 8) + b3) % 4294967296

/-- The 16 initial schedule words of one 64-byte block. -/
def blockWords (block : List Nat) : List Nat :=
  (List.range 16).map (fun j =>
    wordBE (block.getD (4 * j) 0) (block.getD (4 * j + 1) 0)
      (block.getD (4 * j + 2) 0) (block.getD (4 * j + 3) 0))

/-- One step of the `for j in 16..64` schedule-extension loop. -/
def extendWords : Nat → List Nat → List Nat
  | 0, w => w
  | n + 1, w =>
    let j := w.length
    let s1 := rotr32 17 (w.getD (j - 2) 0) ^^^ rotr32 19 (w.getD (j - 2) 0)
      ^^^ ((w.getD (j - 2) 0) >>> 10)
    let s0 := rotr32 7 (w.getD (j - 15) 0) ^^^ rotr32 18 (w.getD (j - 15) 0)
      ^^^ ((w.getD (j - 15) 0) >>> 3)
    extendWords n
      (w ++ [add32 (add32 (add32 s1 (w.getD (j - 7) 0)) s0) (w.getD (j - 16) 0)])

/-- One iteration of the `for t in 0..64` working-variable update. -/
def round (kt wt : Nat) (s : State) : State :=
  let t1 := add32 (add32 (add32 (add32 s.h
    (rotr32 6 s.e ^^^ rotr32 11 s.e ^^^ rotr32 25 s.e))
    ((s.e &&& s.f) ^^^ (not32 s.e &&& s.g))) kt) wt
  let t2 := add32 (rotr32 2 s.a ^^^ rotr32 13 s.a ^^^ rotr32 22 s.a)
    ((s.a &&& s.b) ^^^ (s.a &&& s.c) ^^^ (s.b &&& s.c))
  { a := add32 t1 t2, b := s.a, c := s.b, d := s.c,
    e := add32 s.d t1, f := s.e, g := s.f, h := s.g }

/-- Processing of one 64-byte block: schedule, 64 rounds, then the
final `wrapping_add` of the working variables into `h0..h7`. -/
def compress (s : State) (block : List Nat) : State :=
  let w := extendWords 48 (blockWords block)
  let t := (List.zip k256 w).foldl (fun st kw => round kw.1 kw.2 st) s
  { a := add32 t.a s.a, b := add32 t.b s.b, c := add32 t.c s.c, d := add32 t.d s.d,
    e := add32 t.e s.e, f := add32 t.f s.f, g := add32 t.g s.g, h := add32 t.h s.h }

/-- Big-endian serialization of the final hash values into 32 bytes. -/
def toBytes (s : State) : List Nat :=
  [(s.a >>> 24) % 256, (s.a >>> 16) % 256, (s.a >>> 8) % 256, s.a % 256,
   (s.b >>> 24) % 256, (s.b >>> 16) % 256, (s.b >>> 8) % 256, s.b % 256,
   (s.c >>> 24) % 256, (s.c >>> 16) % 256, (s.c >>> 8) % 256, s.c % 256,
   (s.d >>> 24) % 256, (s.d >>> 16) % 256, (s.d >>> 8) % 256, s.d % 256,
   (s.e >>> 24) % 256, (s.e >>> 16) % 256, (s.e >>> 8) % 256, s.e % 256,
   (s.f >>> 24) % 256, (s.f >>> 16) % 256, (s.f >>> 8) % 256, s.f % 256,
   (s.g >>> 24) % 256, (s.g >>> 16) % 256, (s.g >>> 8) % 256, s.g % 256,
   (s.h >>> 24) % 256, (s.h >>> 16) % 256, (s.h >>> 8) % 256, s.h % 256]

/-- The total SHA-256 computation of `hash/sha256.rs` after the input-size
guard: pad, then process `blocks_count` 64-byte blocks. -/
def hash (message : List Nat) : List Nat :=
  let p := padded message
  let blocksCount := (message.length + padLen message.length + 8) / 64
  toBytes ((List.range blocksCount).foldl
    (fun s i => compress s ((p.drop (64 * i)).take 64)) initState)

/-- The input-size guard of `hash/sha256.rs` line 8:
`message_bytes_count >= (2 << 61)` triggers the panic. -/
def rejects (messageBytesCount : Nat) : Bool := 2 <<< 61 ≤ messageBytesCount

/-- `sha256` from `hash/sha256.rs`: `none` models the `panic!` on oversized
input, otherwise the 32-byte digest is returned. -/
def sha256 (message : List Nat) : Option (List Nat) :=
  if rejects message.length then none else some (hash message)

end sha256

example : sha256.hash [97, 98, 99] =
  [0xba, 0x78, 0x16, 0xbf, 0x8f, 0x01, 0xcf, 0xea, 0x41, 0x41, 0x40, 0xde,
   0x5d, 0xae, 0x22, 0x23, 0xb0, 0x03, 0x61, 0xa3, 0x96, 0x17, 0x7a, 0x9c,
   0xb4, 0x10, 0xff, 0x61, 0xf2, 0x00, 0x15, 0xad] := by decide

namespace hmac256

/-- `authenticate` from `crypto/hmac256.rs`.  `none` models a panic: the
`assert!(key.len() <= 64)` or (for astronomically long input) the sha256
input-size guard. -/
def authenticate (key message : List Nat) : Option (List Nat) :=
  if 64 < key.length then none
  else
    match sha256.sha256 (key.map (fun x => x ^^^ 0x36)
      ++ List.replicate (64 - key.length) 0x36 ++ message) with
    | none => none
    | some innerHash =>
      sha256.sha256 (key.map (fun x => x ^^^ 0x5c)
        ++ List.replicate 32 0x5c ++ innerHash)

end hmac256

namespace hex

/-- `char_to_byte` from `hex/mod.rs`. -/
def char_to_byte (c : Char) : Except String Nat :=
  match c with
  | '0' => .ok 0
  | '1' => .ok 1
  | '2' => .ok 2
  | '3' => .ok 3
  | '4' => .ok 4
  | '5' => .ok 5
  | '6' => .ok 6
  | '7' => .ok 7
  | '8' => .ok 8
  | '9' => .ok 9
  | 'a' => .ok 10
  | 'b' => .ok 11
  | 'c' => .ok 12
  | 'd' => .ok 13
  | 'e' => .ok 14
  | 'f' => .ok 15
  | c => .error (String.append "non hexadecimal char: " c.toString)

/-- The `for c in data.chars()` loop of `decode`, carrying the `carry` flag
and the pending `half` byte exactly as the source's mutable state. -/
def decodeGo (carry : Bool) (half : Nat) : List Char → Except String (List Nat)
  | [] => .ok []
  | c :: rest =>
    match char_to_byte c with
    | .error e => .error e
    | .ok value =>
      match carry with
      | true => decodeGo false (value <<< 4) rest
      | false =>
        match decodeGo true 0 rest with
        | .error e => .error e
        | .ok bytes => .ok ((half + value) :: bytes)

/-- `decode` from `hex/mod.rs`. -/
def decode (data : List Char) : Except String (List Nat) :=
  decodeGo true 0 data

end hex

/-- `Version` from `version/mod.rs` / `crypto/version.rs`. -/
inductive Version where
  | Test
  | V1
deriving DecidableEq

/-- `Version::to_byte`. -/
def Version.to_byte : Version → Nat
  | .Test => 0
  | .V1 => 1

/-- `Version::from_byte`. -/
def Version.from_byte (version : Nat) : Option Version :=
  match version with
  | 0 => some .Test
  | 1 => some .V1
  | _ => none

/-- `Purpose` from `crypto/keys.rs`. -/
inductive Purpose where
  | File
  | Password
deriving DecidableEq

/-- `Purpose::encode`: the canonical byte encodings `b"file"` and
`b"password"`. -/
def Purpose.encode : Purpose → List Nat
  | .File => [102, 105, 108, 101]
  | .Password => [112, 97, 115, 115, 119, 111, 114, 100]

namespace keys

/-- Modelled from the spec: the Argon2id password hash of §4.4, which lives
in the external `argon2` crate and not under `src/`.  It is abstracted as a
deterministic function of version, password and salt producing a 32-byte
master key, failing exactly when the salt is shorter than the 8-byte Argon2
minimum (§4.4: such salts must be rejected as an error). -/
def argon2id (version : Version) (password salt : List Nat) : Option (List Nat) :=
  if salt.length < 8 then none
  else
    let seed := (version.to_byte :: (password ++ 0 :: salt)).foldl
      (fun acc b => (acc * 131 + b + 1) % 65521) 17
    some ((List.range 32).map (fun i => (seed + 37 * i) % 256))

/-- `derive_key` from `crypto/keys.rs`: Argon2id to a 32-byte master key,
then HMAC-SHA256 key separation with the purpose tag as message. -/
def derive_key (version : Version) (password salt : List Nat)
    (purpose : Purpose) : Option (List Nat) :=
  match argon2id version password salt with
  | none => none
  | some masterKey => hmac256.authenticate masterKey purpose.encode

end keys

namespace cipher

/-- Modelled from the spec: a byte-mixing accumulator used to abstract the
ChaCha20-Poly1305 keystream and tag of §4.5 (the AEAD computation lives in
the external `chacha20poly1305` crate, not under `src/`). -/
def mixByte (acc b : Nat) : Nat := (acc * 131 + b + 3) % 65521

/-- Modelled from the spec: an abstract deterministic keystream of the
ChaCha20 stream cipher, a function of key and nonce only. -/
def keystream (key nonce : List Nat) (n : Nat) : List Nat :=
  (List.range n).map (fun i => ((key ++ nonce).foldl mixByte 7 + 13 * i) % 256)

/-- Modelled from the spec: the 16-byte Poly1305 authentication tag,
a deterministic function of key, nonce and ciphertext. -/
def aeadTag (key nonce ct : List Nat) : List Nat :=
  (List.range 16).map (fun i => ((key ++ nonce ++ ct).foldl mixByte 29 + 17 * i) % 256)

/-- Modelled from the spec: ChaCha20-Poly1305 encryption, §4.5:
`(key, plaintext) → ciphertext || tag` with a 16-byte appended tag. -/
def aeadEncrypt (key nonce pt : List Nat) : List Nat :=
  let ct := List.zipWith Nat.xor pt (keystream key nonce pt.length)
  ct ++ aeadTag key nonce ct

/-- Modelled from the spec: ChaCha20-Poly1305 decryption, §4.5:
`(key, input) → plaintext | authentication-error`. -/
def aeadDecrypt (key nonce input : List Nat) : Option (List Nat) :=
  if input.length < 16 then none
  else
    let ct := input.take (input.length - 16)
    let tag := input.drop (input.length - 16)
    if tag = aeadTag key nonce ct then
      some (List.zipWith Nat.xor ct (keystream key nonce ct.length))
    else none

/-- The fixed all-zero 96-bit nonce `Nonce::from([0u8; 12])` of
`crypto/cipher.rs`. -/
def zeroNonce : List Nat := List.replicate 12 0

/-- `encrypt` from `crypto/cipher.rs`: AEAD-encrypt under the fixed
all-zero nonce; it draws no randomness. -/
def encrypt (key plaintext : List Nat) : Option (List Nat) :=
  some (aeadEncrypt key zeroNonce plaintext)

/-- `decrypt` from `crypto/cipher.rs`: AEAD-decrypt under the fixed
all-zero nonce. -/
def decrypt (key ciphertext : List Nat) : Option (List Nat) :=
  aeadDecrypt key zeroNonce ciphertext

end cipher

/-- Continuation-byte test of Rust's UTF-8 validation (`0x80..=0xBF`). -/
def isUtf8Cont (b : Nat) : Bool := 0x80 ≤ b && b ≤ 0xbf

/-- `String::from_utf8` validity of a byte sequence, as checked by the Rust
standard library (including the overlong-encoding and surrogate ranges). -/
def utf8Valid : List Nat → Bool
  | [] => true
  | b :: rest =>
    if b < 0x80 then utf8Valid rest
    else if b < 0xc2 then false
    else if b < 0xe0 then
      match rest with
      | c1 :: rest1 => isUtf8Cont c1 && utf8Valid rest1
      | [] => false
    else if b < 0xf0 then
      match rest with
      | c1 :: c2 :: rest2 =>
        (if b = 0xe0 then 0xa0 ≤ c1 && c1 ≤ 0xbf
         else if b = 0xed then 0x80 ≤ c1 && c1 ≤ 0x9f
         else isUtf8Cont c1) && isUtf8Cont c2 && utf8Valid rest2
      | _ => false
    else if b < 0xf5 then
      match rest with
      | c1 :: c2 :: c3 :: rest3 =>
        (if b = 0xf0 then 0x90 ≤ c1 && c1 ≤ 0xbf
         else if b = 0xf4 then 0x80 ≤ c1 && c1 ≤ 0x8f
         else isUtf8Cont c1) && isUtf8Cont c2 && isUtf8Cont c3 && utf8Valid rest3
      | _ => false
    else false

/-- `read_exact` over an in-memory `BufReader`: take `n` bytes and return
them with the remaining input, failing on a short read. -/
def readExact (n : Nat) (r : List Nat) : Option (List Nat × List Nat) :=
  if n ≤ r.length then some (r.take n, r.drop n) else none

/-- `VaultItem` from `vault/item.rs`.  `name` holds the UTF-8 bytes of the
Rust `String`; `salt` is the 32-byte item salt. -/
structure VaultItem where
  version : Version
  name : List Nat
  salt : List Nat
  encrypted_value : List Nat
deriving DecidableEq

namespace VaultItem

/-- `VaultItem::encrypt` from `vault/item.rs`.  The randomly drawn item salt
(`OsRng::fill_bytes`) is passed explicitly as the `salt` argument. -/
def encrypt (version : Version) (name value password salt : List Nat) : Option VaultItem :=
  match keys.derive_key version password salt Purpose.Password with
  | none => none
  | some encryptionKey =>
    match cipher.encrypt encryptionKey value with
    | none => none
    | some encryptedValue =>
      some { version, name, salt, encrypted_value := encryptedValue }

/-- `VaultItem::decrypt` from `vault/item.rs`. -/
def decrypt (item : VaultItem) (password : List Nat) : Option (List Nat) :=
  match keys.derive_key item.version password item.salt Purpose.Password with
  | none => none
  | some encryptionKey => cipher.decrypt encryptionKey item.encrypted_value

/-- `VaultItem::size` from `vault/item.rs` line 41, byte for byte as the
source computes it (both `Version` arms are identical). -/
def size (item : VaultItem) : Nat :=
  2 + item.name.length + 32 + 1 + item.encrypted_value.length

/-- The big-endian `u16` length prefix `[(len >> 8) as u8, len as u8]`. -/
def u16Bytes (len : Nat) : List Nat := [(len >>> 8) % 256, len % 256]

/-- `VaultItem::serialize_into` from `vault/item.rs`: the bytes appended to
the writer (both `Version` arms are identical). -/
def serializeBytes (item : VaultItem) : List Nat :=
  u16Bytes item.name.length ++ item.name ++ item.salt
    ++ u16Bytes item.encrypted_value.length ++ item.encrypted_value

/-- `VaultItem::deserialize_from` from `vault/item.rs`: reads one item and
returns it with the unconsumed rest of the input; `String::from_utf8` is the
`utf8Valid` check. -/
def deserialize_from (version : Version) (r : List Nat) : Option (VaultItem × List Nat) :=
  match readExact 2 r with
  | none => none
  | some (nameLenBytes, r1) =>
    let nameLen := (nameLenBytes.getD 0 0) <<< 8 ||| nameLenBytes.getD 1 0
    match readExact nameLen r1 with
    | none => none
    | some (name, r2) =>
      match readExact 32 r2 with
      | none => none
      | some (salt, r3) =>
        match readExact 2 r3 with
        | none => none
        | some (valueLenBytes, r4) =>
          let valueLen := (valueLenBytes.getD 0 0) <<< 8 ||| valueLenBytes.getD 1 0
          match readExact valueLen r4 with
          | none => none
          | some (encryptedValue, r5) =>
            if utf8Valid name then
              if nameLen = 0 ∨ valueLen = 0 then none
              else some ({ version, name, salt, encrypted_value := encryptedValue }, r5)
            else none

end VaultItem

/-- `Vault` from `vault/mod.rs`. -/
structure Vault where
  version : Version
  salt : List Nat
  items : List VaultItem
deriving DecidableEq

/-- Result of `Vault::deserialize`: `ok`, the soft `None`, or the panic of
the `.unwrap()` on a failed per-item decode. -/
inductive DeserializeResult where
  | ok (vault : Vault)
  | fail
  | panic
deriving DecidableEq

namespace Vault

/-- `Vault::create` from `vault/mod.rs`; the freshly generated salt of the
`None` branch is passed explicitly. -/
def create (salt : List Nat) : Vault :=
  { version := Version.V1, salt, items := [] }

/-- `Vault::add` from `vault/mod.rs`: encrypt, then push on success.  The
random item salt is passed explicitly.  Returns the Rust `Option<()>`
together with the post-call state of `&mut self`. -/
def add (vault : Vault) (name value password salt : List Nat) : Option Unit × Vault :=
  match VaultItem.encrypt vault.version name value password salt with
  | none => (none, vault)
  | some item => (some (), { vault with items := vault.items ++ [item] })

/-- `Vault::remove` from `vault/mod.rs`. -/
def remove (vault : Vault) (name : List Nat) : Vault :=
  { vault with items := vault.items.filter (fun i => i.name ≠ name) }

/-- `Vault::list` from `vault/mod.rs`. -/
def list (vault : Vault) : List (List Nat) :=
  vault.items.map VaultItem.name

/-- The plaintext buffer serialized by `Vault::serialize`:
`[u16 item_count]` followed by the item blobs. -/
def itemsBytes (vault : Vault) : List Nat :=
  VaultItem.u16Bytes vault.items.length
    ++ (vault.items.map VaultItem.serializeBytes).flatten

/-- `Vault::serialize` from `vault/mod.rs` (both `Version` arms are
identical): derive the file key, AEAD-encrypt the item buffer, and emit
`[version][salt][ciphertext]`. -/
def serialize (vault : Vault) (password : List Nat) : Option (List Nat) :=
  match keys.derive_key vault.version password vault.salt Purpose.File with
  | none => none
  | some encryptionKey =>
    match cipher.encrypt encryptionKey vault.itemsBytes with
    | none => none
    | some encryptedItems =>
      some (vault.version.to_byte :: (vault.salt ++ encryptedItems))

/-- The `(0..items_len).for_each` loop of `Vault::deserialize`: decode the
declared number of items; `none` is the `.unwrap()` panic. -/
def readItems (version : Version) : Nat → List Nat → Option (List VaultItem × List Nat)
  | 0, r => some ([], r)
  | n + 1, r =>
    match VaultItem.deserialize_from version r with
    | none => none
    | some (item, r1) =>
      match readItems version n r1 with
      | none => none
      | some (items, r2) => some (item :: items, r2)

/-- `Vault::deserialize` from `vault/mod.rs`.  Each `.ok()?` is a soft
`fail`; the `.unwrap()` on a failed `VaultItem::deserialize_from` is
`panic`.  Leftover bytes after the declared items are ignored, as in the
source. -/
def deserialize (bin password : List Nat) : DeserializeResult :=
  match readExact 1 bin with
  | none => .fail
  | some (versionByte, r1) =>
    match Version.from_byte (versionByte.getD 0 0) with
    | none => .fail
    | some version =>
      match readExact 32 r1 with
      | none => .fail
      | some (salt, r2) =>
        match readExact (bin.length - 32 - 1) r2 with
        | none => .fail
        | some (encryptedItems, _) =>
          match keys.derive_key version password salt Purpose.File with
          | none => .fail
          | some encryptionKey =>
            match cipher.decrypt encryptionKey encryptedItems with
            | none => .fail
            | some decryptedItems =>
              match readExact 2 decryptedItems with
              | none => .fail
              | some (itemsLenBytes, body) =>
                let itemsLen := (itemsLenBytes.getD 0 0) <<< 8 ||| itemsLenBytes.getD 1 0
                match readItems version itemsLen body with
                | none => .panic
                | some (items, _) => .ok { version, salt, items }

end Vault

/-! ### Definitions taken from the spec's words, for comparison with the
source embeddings (refinement claims), and inputs used by concrete
theorems. -/

/-- The constraints §3 places on a `VaultItem`, together with the
representation facts guaranteed by the Rust types (`salt: [u8; 32]`,
`name: String` holds valid UTF-8). -/
def ItemWF (item : VaultItem) : Prop :=
  item.name ≠ [] ∧ item.name.length ≤ 65535 ∧ utf8Valid item.name = true ∧
  item.encrypted_value ≠ [] ∧ item.encrypted_value.length ≤ 65535 ∧
  item.salt.length = 32

instance (item : VaultItem) : Decidable (ItemWF item) := by
  unfold ItemWF; infer_instance

/-- The HMAC-SHA256 formula as §4.3 of the spec words it:
`SHA-256((K0 XOR opad) || SHA-256((K0 XOR ipad) || message))` with `K0` the
key zero-padded to exactly 64 bytes and ipad/opad applied to all 64 bytes. -/
def hmacSpec (key message : List Nat) : List Nat :=
  let K0 := key ++ List.replicate (64 - key.length) 0
  sha256.hash (K0.map (fun x => x ^^^ 0x5c)
    ++ sha256.hash (K0.map (fun x => x ^^^ 0x36) ++ message))

/-- Hex digit value used by the spec-side pairing function. -/
def hexVal (c : Char) : Nat :=
  match hex.char_to_byte c with
  | .ok v => v
  | .error _ => 0

/-- One byte per completed pair of hex characters, as §4.1 words the
decoder's output. -/
def hexPairs : List Char → List Nat
  | a :: b :: rest => (hexVal a * 16 + hexVal b) :: hexPairs rest
  | _ => []

/-- Iterated `Vault::add` with a fixed name, value, password and item salt;
used to reach a vault with more than 65535 items. -/
def addMany : Nat → Vault → Vault
  | 0, vault => vault
  | n + 1, vault =>
    addMany n (Vault.add vault [97] [98] [99] (List.replicate 32 1)).2

/-- The file key for the concrete corrupt-payload counterexamples:
password `"pw"`, an all-`2` vault salt, version `Test`. -/
def cexFileKey : List Nat :=
  (keys.derive_key Version.Test [112, 119] (List.replicate 32 2) Purpose.File).getD []

/-- A serialized-vault blob whose AEAD payload declares one item but
contains no item bytes: version `Test`, all-`2` salt,
`AEAD(file_key, [0x00, 0x01])`. -/
def cexBlobTruncatedItem : List Nat :=
  0 :: (List.replicate 32 2 ++ (cipher.encrypt cexFileKey [0, 1]).getD [])

/-- A serialized-vault blob whose AEAD payload declares zero items followed
by one leftover byte: `AEAD(file_key, [0x00, 0x00, 0x2a])`. -/
def cexBlobLeftover : List Nat :=
  0 :: (List.replicate 32 2 ++ (cipher.encrypt cexFileKey [0, 0, 42]).getD [])

/-- A `Test`-version vault holding one well-formed item whose own version
field is `V1`: reachable in Rust by mutating the public `vault.version`
field after adding the item. -/
def mixedVersionVault : Vault :=
  ⟨Version.Test, List.replicate 32 3, [⟨Version.V1, [97], List.replicate 32 4, [9]⟩]⟩

/-- What `mixedVersionVault` becomes after a serialize/deserialize
round-trip: the item's version is overwritten by the envelope version. -/
def mixedVersionVaultOut : Vault :=
  ⟨Version.Test, List.replicate 32 3, [⟨Version.Test, [97], List.replicate 32 4, [9]⟩]⟩

/-- A well-formed single-item vault whose item version matches the
vault version; concrete round-trip input. -/
def sampleVault : Vault :=
  ⟨Version.V1, List.replicate 32 3, [⟨Version.V1, [97], List.replicate 32 4, [9, 8, 7]⟩]⟩

/-- The item of the spec §8 serialization vector: name `"4chan pwd"`,
the `0..9` repeating salt, encrypted value `deadbeef`. -/
def katItem : VaultItem :=
  ⟨Version.V1, [52, 99, 104, 97, 110, 32, 112, 119, 100],
   [0, 1, 2, 3, 4, 5, 6, 7, 8, 9, 0, 1, 2, 3, 4, 5, 6, 7, 8, 9, 0, 1, 2, 3, 4, 5, 6, 7, 8, 9, 0, 1],
   [222, 173, 190, 239]⟩

/-- An empty `Test`-version vault used to exercise `Vault::add` with a
zero-length name. -/
def emptyNameTestVault : Vault := ⟨Version.Test, List.replicate 32 5, []⟩

/-- An empty vault used to exercise the atomicity of a failing `Vault::add`. -/
def atomicityVault : Vault := ⟨Version.Test, List.replicate 32 6, []⟩

/-! ### General lemmas about the embedded primitives -/

/-- Every SHA-256 digest produced by the compression pipeline has 32 bytes. -/
theorem sha256_hash_length (message : List Nat) : (sha256.hash message).length = 32 := by
  simp [sha256.hash, sha256.toBytes]

/-- The size guard passes for any message shorter than `2 << 61` bytes. -/
theorem sha256_eq_of_small (message : List Nat) (h : message.length < 2 <<< 61) :
    sha256.sha256 message = some (sha256.hash message) := by
  simp only [sha256.sha256, sha256.rejects]
  rw [if_neg]
  simp only [decide_eq_true_eq]
  omega

/-- XOR-masking with the same keystream twice is the identity. -/
theorem zipWith_xor_cancel : ∀ (pt ks : List Nat), pt.length ≤ ks.length →
    List.zipWith Nat.xor (List.zipWith Nat.xor pt ks) ks = pt
  | [], _, _ => by simp
  | p :: pt, k :: ks, h => by
    simp only [List.zipWith_cons_cons, List.cons.injEq]
    refine ⟨?_, zipWith_xor_cancel pt ks (by simpa using h)⟩
    show p ^^^ k ^^^ k = p
    rw [Nat.xor_assoc, Nat.xor_self, Nat.xor_zero]
  | _ :: _, [], h => by simp at h

/-- The abstract AEAD round-trips: decrypting an encryption under the same
key and nonce recovers the plaintext. -/
theorem aead_roundtrip (key nonce pt : List Nat) :
    cipher.aeadDecrypt key nonce (cipher.aeadEncrypt key nonce pt) = some pt := by
  unfold cipher.aeadEncrypt cipher.aeadDecrypt
  have hks : (cipher.keystream key nonce pt.length).length = pt.length := by
    simp [cipher.keystream]
  have hct : (List.zipWith Nat.xor pt (cipher.keystream key nonce pt.length)).length
      = pt.length := by
    simp [hks]
  have htag : (cipher.aeadTag key nonce
      (List.zipWith Nat.xor pt (cipher.keystream key nonce pt.length))).length = 16 := by
    simp [cipher.aeadTag]
  rw [if_neg (by simp [hct, htag])]
  have hlen : (List.zipWith Nat.xor pt (cipher.keystream key nonce pt.length)
      ++ cipher.aeadTag key nonce
        (List.zipWith Nat.xor pt (cipher.keystream key nonce pt.length))).length - 16
      = pt.length := by
    simp [hct, htag]
  rw [hlen, List.take_left' hct, List.drop_left' hct, if_pos rfl, hct,
    zipWith_xor_cancel pt _ (le_of_eq hks.symm)]

/-- `cipher::decrypt ∘ cipher::encrypt` is the identity on plaintexts. -/
theorem cipher_roundtrip (key pt : List Nat) :
    cipher.decrypt key ((cipher.encrypt key pt).getD []) = some pt := by
  simpa [cipher.encrypt, cipher.decrypt] using
    aead_roundtrip key cipher.zeroNonce pt

/-- Reading exactly the length of a prefix returns that prefix and the rest. -/
theorem readExact_split {xs : List Nat} {n : Nat} (h : xs.length = n) :
    ∀ rest, readExact n (xs ++ rest) = some (xs, rest) := by
  intro rest
  unfold readExact
  rw [if_pos (by simp [← h]), List.take_left' h, List.drop_left' h]

/-- Reading a length equal to that of a prefix, pattern form. -/
theorem readExact_exact (xs rest : List Nat) :
    readExact xs.length (xs ++ rest) = some (xs, rest) :=
  readExact_split rfl rest

/-- Reading a 2-byte length prefix. -/
theorem readExact_cons2 (a b : Nat) (t : List Nat) :
    readExact 2 (a :: b :: t) = some ([a, b], t) :=
  @readExact_split [a, b] 2 rfl t

/-- Reading exactly the whole input returns it with nothing left. -/
theorem readExact_all (xs : List Nat) : readExact xs.length xs = some (xs, []) := by
  simpa using @readExact_split xs xs.length rfl []

/-- Decoding the 2-byte big-endian length prefix recovers any length that
fits in a `u16`. -/
theorem u16_decode (L : Nat) (h : L < 65536) :
    ((L >>> 8) % 256) <<< 8 ||| L % 256 = L := by
  have h1 : L >>> 8 = L / 256 := by
    simpa using Nat.shiftRight_eq_div_pow L 8
  have h2 : L / 256 < 256 := by omega
  rw [h1, Nat.mod_eq_of_lt h2, Nat.shiftLeft_eq]
  have h3 : L % 256 < 2 ^ 8 := by
    have : L % 256 < 256 := by omega
    simpa using this
  calc L / 256 * 2 ^ 8 ||| L % 256
      = 2 ^ 8 * (L / 256) ||| L % 256 := by ring_nf
    _ = 2 ^ 8 * (L / 256) + L % 256 := (Nat.mul_add_lt_is_or h3 _).symm
    _ = L := by omega

/-- `Version::from_byte` inverts `Version::to_byte`. -/
theorem version_byte_roundtrip (v : Version) : Version.from_byte v.to_byte = some v := by
  cases v <;> rfl

/-- The size-guard bound as a numeral. -/
theorem two_shl61_eq : (2 <<< 61 : Nat) = 4611686018427387904 := by
  norm_num [Nat.shiftLeft_eq]

/-- For keys within the supported 64 bytes and reasonably sized messages,
`authenticate` does not panic and yields a 32-byte MAC. -/
theorem authenticate_some (key msg : List Nat) (hk : key.length ≤ 64)
    (hm : msg.length ≤ 256) :
    ∃ d, hmac256.authenticate key msg = some d ∧ d.length = 32 := by
  unfold hmac256.authenticate
  rw [if_neg (by omega)]
  have hin : (key.map (fun x => x ^^^ 0x36)
      ++ List.replicate (64 - key.length) 0x36 ++ msg).length < 2 <<< 61 := by
    simp only [List.length_append, List.length_map, List.length_replicate, two_shl61_eq]
    omega
  simp only [sha256_eq_of_small _ hin]
  have hout : (key.map (fun x => x ^^^ 0x5c) ++ List.replicate 32 0x5c
      ++ sha256.hash (key.map (fun x => x ^^^ 0x36)
        ++ List.replicate (64 - key.length) 0x36 ++ msg)).length < 2 <<< 61 := by
    simp only [List.length_append, List.length_map, List.length_replicate,
      sha256_hash_length, two_shl61_eq]
    omega
  simp only [sha256_eq_of_small _ hout]
  exact ⟨_, rfl, sha256_hash_length _⟩

/-- With a salt of at least the 8-byte Argon2 minimum, `derive_key`
succeeds and yields a 32-byte key. -/
theorem derive_key_some (version : Version) (password salt : List Nat)
    (purpose : Purpose) (h : 8 ≤ salt.length) :
    ∃ k, keys.derive_key version password salt purpose = some k ∧ k.length = 32 := by
  have hlt : ¬ salt.length < 8 := by omega
  unfold keys.derive_key keys.argon2id
  simp only [if_neg hlt]
  exact authenticate_some _ _ (by simp) (by cases purpose <;> simp [Purpose.encode])

/-- Decoding a serialized well-formed item consumes exactly its bytes and
reconstructs it, with the version field taken from the decoder's argument. -/
theorem item_roundtrip (v : Version) (i : VaultItem) (rest : List Nat) (h : ItemWF i) :
    VaultItem.deserialize_from v (VaultItem.serializeBytes i ++ rest)
      = some ({ i with version := v }, rest) := by
  obtain ⟨hn0, hn, hutf, he0, he, hs⟩ := h
  have hn1 : 1 ≤ i.name.length := List.length_pos.mpr hn0
  have he1 : 1 ≤ i.encrypted_value.length := List.length_pos.mpr he0
  simp only [VaultItem.deserialize_from, VaultItem.serializeBytes, VaultItem.u16Bytes,
    List.append_assoc, List.cons_append, List.nil_append,
    readExact_cons2, List.getD_cons_zero, List.getD_cons_succ,
    u16_decode i.name.length (by omega), u16_decode i.encrypted_value.length (by omega),
    readExact_exact, readExact_split hs, hutf, if_true]
  rw [if_neg (by omega)]

/-- Reading a 1-byte version prefix. -/
theorem readExact_cons1 (a : Nat) (t : List Nat) :
    readExact 1 (a :: t) = some ([a], t) :=
  @readExact_split [a] 1 rfl t

/-- `decrypt` inverts the encryption performed by `Vault::serialize`. -/
theorem decrypt_encrypt (key pt : List Nat) :
    cipher.decrypt key (cipher.aeadEncrypt key cipher.zeroNonce pt) = some pt :=
  aead_roundtrip key cipher.zeroNonce pt

/-- The item loop of `Vault::deserialize` decodes a concatenation of
serialized well-formed items (whose version matches the envelope's) back to
the original list, leaving exactly the trailing bytes. -/
theorem readItems_append (v : Version) : ∀ (items : List VaultItem) (rest : List Nat),
    (∀ i ∈ items, ItemWF i ∧ i.version = v) →
    Vault.readItems v items.length ((items.map VaultItem.serializeBytes).flatten ++ rest)
      = some (items, rest)
  | [], rest, _ => by simp [Vault.readItems]
  | i :: items, rest, h => by
    have hi := h i (by simp)
    have hieq : ({ i with version := v } : VaultItem) = i := by
      obtain ⟨_, hiv⟩ := hi
      cases i
      simp_all
    have hrec := readItems_append v items rest (fun j hj => h j (by simp [hj]))
    simp only [List.map_cons, List.flatten_cons, List.length_cons, List.append_assoc]
    simp only [Vault.readItems, item_roundtrip v i _ hi.1, hieq, hrec]

/-- C1 (amended): serializing then deserializing a well-formed vault under
the same password succeeds and reproduces the vault exactly. -/
theorem vault_roundtrip (v : Vault) (pw : List Nat)
    (hsalt : v.salt.length = 32)
    (hcount : v.items.length ≤ 65535)
    (hwf : ∀ i ∈ v.items, ItemWF i)
    (hver : ∀ i ∈ v.items, i.version = v.version) :
    ∃ blob, Vault.serialize v pw = some blob
      ∧ Vault.deserialize blob pw = DeserializeResult.ok v := by
  obtain ⟨k, hk, _⟩ := derive_key_some v.version pw v.salt Purpose.File (by omega)
  refine ⟨v.version.to_byte
    :: (v.salt ++ cipher.aeadEncrypt k cipher.zeroNonce v.itemsBytes), ?_, ?_⟩
  · simp only [Vault.serialize, hk, cipher.encrypt]
  · have hitems : Vault.readItems v.version v.items.length
        ((v.items.map VaultItem.serializeBytes).flatten ++ [])
        = some (v.items, []) :=
      readItems_append v.version v.items [] (fun i hi => ⟨hwf i hi, hver i hi⟩)
    rw [List.append_nil] at hitems
    have hlen : (v.version.to_byte
        :: (v.salt ++ cipher.aeadEncrypt k cipher.zeroNonce v.itemsBytes)).length - 32 - 1
        = (cipher.aeadEncrypt k cipher.zeroNonce v.itemsBytes).length := by
      simp [hsalt]
      omega
    simp only [Vault.deserialize, readExact_cons1, List.getD_cons_zero,
      version_byte_roundtrip, readExact_split hsalt, hlen, readExact_all,
      hk, decrypt_encrypt]
    simp only [Vault.itemsBytes, VaultItem.u16Bytes, List.cons_append,
      List.nil_append, readExact_cons2, List.getD_cons_succ, List.getD_cons_zero,
      u16_decode v.items.length (by omega), hitems]

/-- On all-hex input the decoder loop produces exactly one byte per
completed pair (an unpaired trailing nibble is silently dropped). -/
theorem decodeGo_ok : ∀ (s : List Char),
    (∀ c ∈ s, (hex.char_to_byte c).isOk = true) →
    hex.decodeGo true 0 s = .ok (hexPairs s)
  | [], _ => rfl
  | [a], h => by
    have ha := h a (by simp)
    cases hca : hex.char_to_byte a with
    | error e => rw [hca] at ha; simp [Except.isOk, Except.toBool] at ha
    | ok va => simp [hex.decodeGo, hca, hexPairs]
  | a :: b :: rest, h => by
    have ha := h a (by simp)
    have hb := h b (by simp)
    have hrec := decodeGo_ok rest (fun c hc => h c (by simp [hc]))
    cases hca : hex.char_to_byte a with
    | error e => rw [hca] at ha; simp [Except.isOk, Except.toBool] at ha
    | ok va =>
      cases hcb : hex.char_to_byte b with
      | error e => rw [hcb] at hb; simp [Except.isOk, Except.toBool] at hb
      | ok vb =>
        simp [hex.decodeGo, hca, hcb, hrec, hexPairs, hexVal,
          Nat.shiftLeft_eq, Nat.mul_comm]

/-- Any non-hex character anywhere in the input makes the decoder loop
return an error, whatever the carry state. -/
theorem decodeGo_error : ∀ (s : List Char) (carry : Bool) (half : Nat),
    (∃ c ∈ s, (hex.char_to_byte c).isOk = false) →
    ∃ msg, hex.decodeGo carry half s = .error msg
  | [], _, _, h => by simp at h
  | a :: rest, carry, half, h => by
    cases hca : hex.char_to_byte a with
    | error e => exact ⟨e, by cases carry <;> simp [hex.decodeGo, hca]⟩
    | ok va =>
      have hrest : ∃ c ∈ rest, (hex.char_to_byte c).isOk = false := by
        obtain ⟨c, hc, hbad⟩ := h
        rcases List.mem_cons.mp hc with rfl | hc'
        · rw [hca] at hbad; simp [Except.isOk, Except.toBool] at hbad
        · exact ⟨c, hc', hbad⟩
      cases carry with
      | true =>
        obtain ⟨msg, hmsg⟩ := decodeGo_error rest false (va <<< 4) hrest
        exact ⟨msg, by simp [hex.decodeGo, hca, hmsg]⟩
      | false =>
        obtain ⟨msg, hmsg⟩ := decodeGo_error rest true 0 hrest
        exact ⟨msg, by simp [hex.decodeGo, hca, hmsg]⟩

/-- An `add` with a salt of at least the Argon2 minimum always succeeds and
appends exactly one item. -/
theorem add_result (v : Vault) (name value password salt : List Nat)
    (h : 8 ≤ salt.length) :
    (Vault.add v name value password salt).1 = some () ∧
    ((Vault.add v name value password salt).2).items.length = v.items.length + 1 := by
  obtain ⟨k, hk, _⟩ := derive_key_some v.version password salt Purpose.Password h
  simp [Vault.add, VaultItem.encrypt, hk, cipher.encrypt]

/-- Iterating `add` with a 32-byte item salt grows the item list by one per
call, without bound. -/
theorem addMany_length : ∀ (n : Nat) (v : Vault),
    (addMany n v).items.length = v.items.length + n
  | 0, v => by simp [addMany]
  | n + 1, v => by
    have h := add_result v [97] [98] [99] (List.replicate 32 1) (by simp)
    simp only [addMany, addMany_length n]
    omega

/-! ### Known-answer checks against the repository's own test vectors -/

example : hmac256.authenticate
    [163, 160, 123, 168, 170, 174, 176, 214, 15, 173, 118, 116, 55, 181, 68, 203,
     253, 121, 10, 149, 112, 42, 248, 224, 129, 159, 46, 183, 6, 180, 102, 96]
    [99, 121, 98, 101, 108, 101, 32, 99, 111, 110, 116, 114, 111, 108, 115, 32,
     116, 104, 101, 32, 107, 101, 121, 115, 32, 116, 111, 32, 116, 104, 101, 32,
     119, 111, 114, 108, 100]
    = some [99, 151, 196, 118, 138, 10, 123, 18, 45, 251, 181, 212, 92, 217, 163,
      203, 237, 106, 108, 130, 99, 101, 241, 51, 163, 49, 72, 158, 204, 95, 188,
      223] := by decide

example : VaultItem.serializeBytes katItem
    = [0, 9, 52, 99, 104, 97, 110, 32, 112, 119, 100, 0, 1, 2, 3, 4, 5, 6, 7, 8,
       9, 0, 1, 2, 3, 4, 5, 6, 7, 8, 9, 0, 1, 2, 3, 4, 5, 6, 7, 8, 9, 0, 1, 0,
       4, 222, 173, 190, 239] := by decide

/-! ### The claims -/

/-- C1 (counterexample): the round-trip is not the identity on every vault
meeting the §3 item constraints.  `mixedVersionVault` is a `Test` vault
holding a well-formed item whose own version is `V1` (reachable by mutating
the public `vault.version` field after `add`); serialization succeeds, but
deserialization rewrites the item's version to the envelope version, so the
result differs from the input. -/
theorem c1_roundtrip_version_cex :
    (Vault.serialize mixedVersionVault [113]).isSome = true ∧
    Vault.deserialize ((Vault.serialize mixedVersionVault [113]).getD []) [113]
      = DeserializeResult.ok mixedVersionVaultOut ∧
    mixedVersionVaultOut ≠ mixedVersionVault := by
  refine ⟨by decide, by decide, by decide⟩

/-- C1 (amended): for every vault with at most 65535 items, a 32-byte salt,
items satisfying the §3 constraints, and items whose version field equals
the vault's version (as items built by `Vault::add` always do),
`Vault::deserialize (Vault::serialize v pw) pw` succeeds and returns a
vault equal to `v` — same version, same salt, same items in order. -/
theorem c1_vault_roundtrip (v : Vault) (pw : List Nat)
    (hsalt : v.salt.length = 32)
    (hcount : v.items.length ≤ 65535)
    (hwf : ∀ i ∈ v.items, ItemWF i)
    (hver : ∀ i ∈ v.items, i.version = v.version) :
    ∃ blob, Vault.serialize v pw = some blob
      ∧ Vault.deserialize blob pw = DeserializeResult.ok v :=
  vault_roundtrip v pw hsalt hcount hwf hver

/-- C1 witness: the round-trip theorem applied to a concrete one-item
vault. -/
theorem c1_vault_roundtrip_witness :
    ∃ blob, Vault.serialize sampleVault [113] = some blob
      ∧ Vault.deserialize blob [113] = DeserializeResult.ok sampleVault :=
  c1_vault_roundtrip sampleVault [113] (by decide) (by decide) (by decide) (by decide)

/-- C2: `Vault::deserialize` is not soft-failing on corrupt decrypted
payloads.  On a payload declaring one item with no item bytes the per-item
`.unwrap()` panics, and a payload with leftover bytes after the declared
items is accepted rather than rejected. -/
theorem c2_deserialize_panics_and_accepts_leftover :
    Vault.deserialize cexBlobTruncatedItem [112, 119] = DeserializeResult.panic ∧
    Vault.deserialize cexBlobLeftover [112, 119]
      = DeserializeResult.ok ⟨Version.Test, List.replicate 32 2, []⟩ := by
  refine ⟨by decide, by decide⟩

/-- C3: `VaultItem::size` is one byte short of the serialized length: the
source computes `2 + name_len + 32 + 1 + ct_len` where the encoder writes
`2 + name_len + 32 + 2 + ct_len` bytes.  On the spec §8 vector item
(9-byte name, 4-byte value) `size()` is 48 while serialization emits 49
bytes. -/
theorem c3_size_off_by_one :
    VaultItem.size katItem = 48 ∧
    (VaultItem.serializeBytes katItem).length = 49 ∧
    2 + 9 + 32 + 2 + 4 = 49 := by
  refine ⟨by decide, by decide, by decide⟩

/-- `size()` underestimates the encoder's output by exactly one byte on
every item with the 32-byte salt the Rust type guarantees. -/
theorem serializeBytes_length (i : VaultItem) (h : i.salt.length = 32) :
    (VaultItem.serializeBytes i).length = VaultItem.size i + 1 := by
  simp [VaultItem.serializeBytes, VaultItem.u16Bytes, VaultItem.size, h]
  omega

/-- C4: `Vault::add` (via `VaultItem::encrypt`) performs no input
validation: adding an item with a zero-length name returns success and
appends the item, instead of returning a BadInput-style error and leaving
the vault unchanged. -/
theorem c4_empty_name_accepted :
    (Vault.add emptyNameTestVault [] [118] [112, 119] (List.replicate 32 9)).1
      = some () ∧
    ((Vault.add emptyNameTestVault [] [118] [112, 119] (List.replicate 32 9)).2).items.map
      VaultItem.name = [[]] := by
  refine ⟨by decide, by decide⟩

/-- C5 (counterexample): `hex::decode` does not reject odd-length input:
on `"abc"` it returns `Ok([0xab])`, silently dropping the trailing
nibble. -/
theorem c5_odd_length_cex :
    hex.decode ['a', 'b', 'c'] = Except.ok [171] := by rfl

/-- C5 (amended): `hex::decode` errors exactly on characters outside
`0-9a-f`; on all-hex input it returns one byte per completed pair, and an
odd-length input is accepted with the unpaired trailing nibble silently
dropped rather than rejected. -/
theorem c5_hex_decode (s : List Char) :
    ((∀ c ∈ s, (hex.char_to_byte c).isOk = true) →
      hex.decode s = Except.ok (hexPairs s)) ∧
    ((∃ c ∈ s, (hex.char_to_byte c).isOk = false) →
      ∃ msg, hex.decode s = Except.error msg) :=
  ⟨fun h => decodeGo_ok s h, fun h => decodeGo_error s true 0 h⟩

/-- C5 witness: the amended statement at concrete inputs `"de"` and
`"dz"`. -/
theorem c5_hex_decode_witness :
    hex.decode ['d', 'e'] = Except.ok (hexPairs ['d', 'e']) ∧
    ∃ msg, hex.decode ['d', 'z'] = Except.error msg :=
  ⟨(c5_hex_decode ['d', 'e']).1 (by decide), (c5_hex_decode ['d', 'z']).2 (by decide)⟩

/-- C6 (counterexample): `authenticate` does not compute the HMAC formula
for every key of at most 64 bytes: the outer block is padded with exactly
32 `0x5c` bytes regardless of key length, so for the empty key the outer
input has 64 bytes instead of 96 and the result differs from
`SHA-256((K0^opad) || SHA-256((K0^ipad) || msg))`. -/
theorem c6_hmac_short_key_cex :
    hmac256.authenticate [] [] ≠ some (hmacSpec [] []) := by decide

/-- C6 (amended): for every key of exactly 32 bytes (the only length the
library ever uses) and any message below the sha256 size guard,
`authenticate` returns exactly
`SHA-256((K0 XOR opad) || SHA-256((K0 XOR ipad) || message))` with `K0`
the key zero-padded to 64 bytes, and the output has 32 bytes. -/
theorem c6_hmac_correct (key msg : List Nat) (hk : key.length = 32)
    (hm : 64 + msg.length < 2 <<< 61) :
    hmac256.authenticate key msg = some (hmacSpec key msg) ∧
    (hmacSpec key msg).length = 32 := by
  rw [two_shl61_eq] at hm
  constructor
  · have h1 : (key.map (fun x => x ^^^ 0x36)
        ++ List.replicate (64 - key.length) 0x36 ++ msg).length < 2 <<< 61 := by
      simp only [List.length_append, List.length_map, List.length_replicate, two_shl61_eq]
      omega
    unfold hmac256.authenticate
    rw [if_neg (by omega)]
    simp only [sha256_eq_of_small _ h1]
    have h2 : (key.map (fun x => x ^^^ 0x5c) ++ List.replicate 32 0x5c
        ++ sha256.hash (key.map (fun x => x ^^^ 0x36)
          ++ List.replicate (64 - key.length) 0x36 ++ msg)).length < 2 <<< 61 := by
      simp only [List.length_append, List.length_map, List.length_replicate,
        sha256_hash_length, two_shl61_eq]
      omega
    simp only [sha256_eq_of_small _ h2]
    simp only [hmacSpec, List.map_append, List.map_replicate, Nat.zero_xor, hk,
      List.append_assoc]
  · simp [hmacSpec, sha256_hash_length]

/-- C6 witness: the amended HMAC statement at a concrete 32-byte key and
empty message. -/
theorem c6_hmac_correct_witness :
    hmac256.authenticate (List.replicate 32 0xaa) []
      = some (hmacSpec (List.replicate 32 0xaa) []) ∧
    (hmacSpec (List.replicate 32 0xaa) []).length = 32 :=
  c6_hmac_correct (List.replicate 32 0xaa) [] (by decide) (by decide)

/-- C7: the invariant `items.len() ≤ 65535` is not preserved by the public
operations: `Vault::add` never checks the count, so 65536 successful adds
starting from a fresh vault produce a reachable vault with 65536 items. -/
theorem c7_item_bound_violated :
    (addMany 65536 (Vault.create (List.replicate 32 0))).items.length = 65536 := by
  rw [addMany_length 65536 (Vault.create (List.replicate 32 0))]
  simp [Vault.create]

/-- C8: the sha256 size guard is off by a factor of two: `2 << 61` equals
`2^62`, so a message of `2^61` bytes — whose bit length `2^64` does not fit
in 64 bits — passes the guard, while the claim (and the code's own panic
message) require rejection from `2^61` bytes on. -/
theorem c8_guard_threshold :
    sha256.rejects (2 ^ 61) = false ∧
    (2 <<< 61 : Nat) = 2 ^ 62 ∧
    ¬ 8 * 2 ^ 61 < 2 ^ 64 ∧
    sha256.rejects (2 ^ 62) = true := by
  refine ⟨by decide, by decide, by decide, by decide⟩

/-- C9: `Vault::add` is atomic: whenever it returns `None`, the vault —
version, salt and item list — is exactly as before the call. -/
theorem c9_add_atomic (v : Vault) (name value password salt : List Nat)
    (h : (Vault.add v name value password salt).1 = none) :
    (Vault.add v name value password salt).2 = v := by
  unfold Vault.add at h ⊢
  cases henc : VaultItem.encrypt v.version name value password salt with
  | none => simp [henc]
  | some item => rw [henc] at h; simp at h

/-- C9 witness: a concrete failing `add` (empty salt, so key derivation
fails) that leaves the vault unchanged. -/
theorem c9_add_atomic_witness :
    (Vault.add atomicityVault [97] [98] [99] []).1 = none ∧
    (Vault.add atomicityVault [97] [98] [99] []).2 = atomicityVault :=
  ⟨by decide, c9_add_atomic atomicityVault [97] [98] [99] [] (by decide)⟩

/-- C10: `cipher::encrypt` and `cipher::decrypt` are deterministic: the
embedding passes entropy explicitly wherever the source draws randomness,
and these functions take no such parameter — their output is a pure
function of key and plaintext/ciphertext through the fixed all-zero 96-bit
nonce, so two runs on equal inputs produce byte-identical output. -/
theorem c10_cipher_deterministic (key pt ct : List Nat) :
    cipher.encrypt key pt = some (cipher.aeadEncrypt key (List.replicate 12 0) pt) ∧
    cipher.decrypt key ct = cipher.aeadDecrypt key (List.replicate 12 0) ct :=
  ⟨rfl, rfl⟩

end Cybele
